import Mathlib

/-!
Verification development for the daily-logger routing-and-persistence core
(`logger.rs`).  The Rust source is shallowly embedded: severity levels and
level filters become inductive types compared through their numeric ranks,
the process-wide logger state (`base_path`, `stdout_level`, `file_level`,
the `log` crate's global max level and logger-registration flag) becomes an
explicit `GlobalState`, the bounded LRU file-handle cache becomes a
`FileCache` over an association list plus a recency queue, and the fallible
file-system operations of `write_to_file` / `FileCache::get_or_open` are
modelled by an `IoWorld` of per-attempt failure outcomes together with an
event trace.
-/

/-- `log::Level` (Rust): Error < Warn < Info < Debug < Trace by rank. -/
inductive Level where
  | Error | Warn | Info | Debug | Trace
deriving DecidableEq

/-- Numeric rank used by the `log` crate's `usize` conversion (Error = 1). -/
def Level.toNat : Level → Nat
  | .Error => 1
  | .Warn => 2
  | .Info => 3
  | .Debug => 4
  | .Trace => 5

/-- `Display` for `log::Level`: upper-case names. -/
def Level.display : Level → String
  | .Error => "ERROR"
  | .Warn => "WARN"
  | .Info => "INFO"
  | .Debug => "DEBUG"
  | .Trace => "TRACE"

/-- `log::LevelFilter` (Rust): Off = 0 below all levels. -/
inductive LevelFilter where
  | Off | Error | Warn | Info | Debug | Trace
deriving DecidableEq

/-- Numeric rank of a `LevelFilter` (`usize` conversion in the `log` crate). -/
def LevelFilter.toNat : LevelFilter → Nat
  | .Off => 0
  | .Error => 1
  | .Warn => 2
  | .Info => 3
  | .Debug => 4
  | .Trace => 5

/-- `Ord::max` on `LevelFilter` (`stdout_level.max(file_level)` in `init_logger`). -/
def LevelFilter.maxF (a b : LevelFilter) : LevelFilter :=
  if a.toNat ≤ b.toNat then b else a

/-- The per-sink severity gate `record.level() <= threshold` (Rust `<=` on ranks):
true iff the record is at least as severe as the filter admits. -/
def levelPasses (l : Level) (f : LevelFilter) : Prop :=
  l.toNat ≤ f.toNat

instance (l : Level) (f : LevelFilter) : Decidable (levelPasses l f) := by
  unfold levelPasses; infer_instance

/-- Process-wide logger state: the three `Mutex`-guarded fields of
`DailyLogger` plus the `log` crate's two globals touched by `init_logger`
(`log::set_max_level` target and the has-a-logger-been-set flag that makes
`log::set_logger` fail on re-registration). -/
structure GlobalState where
  base_path : Option String
  stdout_level : LevelFilter
  file_level : LevelFilter
  max_level : LevelFilter
  logger_set : Bool
deriving DecidableEq

/-- State at process start: `DailyLogger::new` is Info/Info with no base path;
the `log` crate's max level starts at `Off` and no logger is registered. -/
def initialState : GlobalState :=
  { base_path := none, stdout_level := .Info, file_level := .Info,
    max_level := .Off, logger_set := false }

/-- `DailyLogger::set_levels`. -/
def set_levels (g : GlobalState) (stdout_level file_level : LevelFilter) : GlobalState :=
  { g with stdout_level := stdout_level, file_level := file_level }

/-- `DailyLogger::set_base_path`. -/
def set_base_path (g : GlobalState) (path : String) : GlobalState :=
  { g with base_path := some path }

/-- Whether an `init_logger` invocation returned normally or panicked. -/
inductive InitResult where
  | ok | panicked
deriving DecidableEq

/-- `init_logger`: sets base path and levels, then calls
`log::set_logger(..).unwrap()` — which panics if a logger is already
registered, skipping the final `log::set_max_level`. -/
def init_logger (g : GlobalState) (stdout_level file_level : LevelFilter)
    (base_path : String) : GlobalState × InitResult :=
  let g1 := set_levels (set_base_path g base_path) stdout_level file_level
  if g1.logger_set then
    (g1, .panicked)
  else
    ({ g1 with logger_set := true,
               max_level := stdout_level.maxF file_level }, .ok)

/-- Configurations reachable from process start through the initialization
entry point and the levels setter. -/
inductive Reachable : GlobalState → Prop where
  | base : Reachable initialState
  | init_step (g : GlobalState) (s f : LevelFilter) (bp : String) :
      Reachable g → Reachable (init_logger g s f bp).1
  | levels_step (g : GlobalState) (s f : LevelFilter) :
      Reachable g → Reachable (set_levels g s f)

/-- `DailyLogger::enabled`: `metadata.level() <= log::max_level()`. -/
def DailyLogger.enabled (g : GlobalState) (l : Level) : Prop :=
  levelPasses l g.max_level

instance (g : GlobalState) (l : Level) : Decidable (DailyLogger.enabled g l) := by
  unfold DailyLogger.enabled; infer_instance

/-- A log record as consumed by `DailyLogger::log`: severity, target,
rendered message, and the value of the one recognized key-value attribute
(`uuid`), if present. -/
structure Record where
  level : Level
  target : String
  message : String
  uuid : Option String
deriving DecidableEq

/-- The local timestamp resolved once per `log` call (`Local::now()`):
the calendar components consumed by `Datelike` plus the rendered
RFC 3339 form consumed by the formatter. -/
structure LocalTime where
  year : Int
  month : Nat
  day : Nat
  rfc3339 : String
deriving DecidableEq

/-- Non-keyed line shape: `format!("{}-{}|[{}]: {}", now.to_rfc3339(),
record.level(), record.target(), record.args())`. -/
def logEntryNonKeyed (t : LocalTime) (r : Record) : String :=
  t.rfc3339 ++ "-" ++ r.level.display ++ "|[" ++ r.target ++ "]: " ++ r.message

/-- Keyed line shape: `format!("{}-{}|[{}]<{}>:{}", ..)`. -/
def logEntryKeyed (t : LocalTime) (r : Record) (uuid : String) : String :=
  t.rfc3339 ++ "-" ++ r.level.display ++ "|[" ++ r.target ++ "]<" ++ uuid ++ ">:" ++ r.message

/-- The entry string held in `log_entry` after the uuid branch: keyed shape
when the recognized key is present, non-keyed otherwise. -/
def entryLine (t : LocalTime) (r : Record) : String :=
  match r.uuid with
  | some u => logEntryKeyed t r u
  | none => logEntryNonKeyed t r

/-- Per-key file name `format!("order_{uuid}.log")`. -/
def orderFileName (uuid : String) : String :=
  "order_" ++ uuid ++ ".log"

/-- Daily file name `format!("log_{}_{}_{}.log", now.year(), now.month(), now.day())`. -/
def dateLogName (t : LocalTime) : String :=
  "log_" ++ toString t.year ++ "_" ++ toString t.month ++ "_" ++ toString t.day ++ ".log"

/-- ANSI color wrapping applied to the console variant only. -/
def colorize (l : Level) (s : String) : String :=
  match l with
  | .Error => "\x1b[31m" ++ s ++ "\x1b[0m"
  | .Warn => "\x1b[33m" ++ s ++ "\x1b[0m"
  | .Info => "\x1b[32m" ++ s ++ "\x1b[0m"
  | .Debug => "\x1b[37m" ++ s ++ "\x1b[0m"
  | .Trace => "\x1b[90m" ++ s ++ "\x1b[0m"

/-- What one `DailyLogger::log` call emits: the file writes it requests, in
order (per-key file first when it fires, then the daily file), and the
console line, if any. -/
structure LogOutput where
  fileWrites : List (String × String)
  consoleOut : Option String
deriving DecidableEq

/-- `DailyLogger::log`: early return unless `enabled`; format the non-keyed
entry; if the `uuid` attribute is present re-format as the keyed entry and,
when the file gate admits, write it to `order_<uuid>.log`; independently
print the colorized current entry when the console gate admits; and write
the current entry to the daily file when the file gate admits. -/
def DailyLogger.log (g : GlobalState) (t : LocalTime) (r : Record) : LogOutput :=
  if DailyLogger.enabled g r.level then
    match r.uuid with
    | some u =>
      let entry := logEntryKeyed t r u
      let keyWrites :=
        if levelPasses r.level g.file_level then [(orderFileName u, entry)] else []
      let console :=
        if levelPasses r.level g.stdout_level then some (colorize r.level entry) else none
      let dailyWrites :=
        if levelPasses r.level g.file_level then [(dateLogName t, entry)] else []
      ⟨keyWrites ++ dailyWrites, console⟩
    | none =>
      let entry := logEntryNonKeyed t r
      let console :=
        if levelPasses r.level g.stdout_level then some (colorize r.level entry) else none
      let dailyWrites :=
        if levelPasses r.level g.file_level then [(dateLogName t, entry)] else []
      ⟨dailyWrites, console⟩
  else ⟨[], none⟩

/-- `MAX_CACHE_SIZE` in `logger.rs`. -/
def MAX_CACHE_SIZE : Nat := 32

/-- The bounded file-handle cache: `files` is the `HashMap<PathBuf,
BufWriter<File>>` rendered as an association list from path to an abstract
handle identifier, `order` is the `VecDeque<PathBuf>` recency queue (front =
least recently used), and `nextHandle` numbers freshly opened handles so
that handle identity is observable. -/
structure FileCache where
  max_size : Nat
  files : List (String × Nat)
  order : List String
  nextHandle : Nat
deriving DecidableEq

/-- `FileCache::new`. -/
def FileCache.new (max_size : Nat) : FileCache :=
  { max_size := max_size, files := [], order := [], nextHandle := 0 }

/-- `HashMap::get` / `contains_key` on the association list. -/
def findKey (l : List (String × Nat)) (k : String) : Option Nat :=
  (l.find? (fun e => e.1 == k)).map Prod.snd

/-- The paths currently holding an open handle (the map's key set). -/
def cacheKeys (c : FileCache) : List String :=
  c.files.map Prod.fst

/-- `FileCache::get_or_open`, success path (no I/O failure): on a hit,
`order.retain(|f| f != &path)` then `push_back` and the existing handle is
returned; on a miss, evict the front of `order` when
`files.len() >= max_size`, then open a fresh handle (append mode), insert
it and push the path to the back of the queue. -/
def FileCache.get_or_open (c : FileCache) (path : String) : FileCache × Nat :=
  match findKey c.files path with
  | some h =>
    ({ c with order := c.order.filter (fun q => q != path) ++ [path] }, h)
  | none =>
    let c1 :=
      if c.max_size ≤ c.files.length then
        match c.order with
        | [] => c
        | oldest :: rest =>
          { c with files := c.files.filter (fun e => e.1 != oldest), order := rest }
      else c
    ({ c1 with files := c1.files ++ [(path, c.nextHandle)],
               order := c1.order ++ [path],
               nextHandle := c.nextHandle + 1 }, c.nextHandle)

/-- Per-attempt outcomes of the fallible file-system operations one
`write_to_file` call performs. -/
structure IoWorld where
  createDirFails : Bool
  openFails : Bool
  writeFails : Bool
  flushFails : Bool
deriving DecidableEq

/-- Trace of file-system operations attempted by the write path, each with
its outcome. -/
inductive FsEvent where
  | createDirAll (path : String) (ok : Bool)
  | openAttempt (path : String) (ok : Bool)
  | writeLine (path line : String) (ok : Bool)
  | flushBuf (path : String) (ok : Bool)
deriving DecidableEq

/-- `FileCache::get_or_open` with its file-system effects: on a miss it
runs `let _ = std::fs::create_dir_all(parent)` (failure swallowed) and then
`OpenOptions::open(..).expect(..)` — an open failure panics, after any
eviction has already mutated the cache; the returned handle is `none` in
that case. A hit touches the file system not at all. -/
def FileCache.getOrOpenFx (c : FileCache) (path : String) (io : IoWorld) :
    FileCache × Option Nat × List FsEvent :=
  match findKey c.files path with
  | some h =>
    ({ c with order := c.order.filter (fun q => q != path) ++ [path] }, some h, [])
  | none =>
    let c1 :=
      if c.max_size ≤ c.files.length then
        match c.order with
        | [] => c
        | oldest :: rest =>
          { c with files := c.files.filter (fun e => e.1 != oldest), order := rest }
      else c
    let evs := [FsEvent.createDirAll path (!io.createDirFails)]
    if io.openFails then
      (c1, none, evs ++ [FsEvent.openAttempt path false])
    else
      ({ c1 with files := c1.files ++ [(path, c.nextHandle)],
                 order := c1.order ++ [path],
                 nextHandle := c.nextHandle + 1 },
       some c.nextHandle,
       evs ++ [FsEvent.openAttempt path true])

/-- `base_path.map(|base| base.join(file_name)).unwrap_or_else(|| file_name.into())`. -/
def fullPath (base_path : Option String) (file_name : String) : String :=
  match base_path with
  | some b => b ++ "/" ++ file_name
  | none => file_name

/-- Result of one `write_to_file` call: normal return or a panic of the
calling thread, in both cases with the cache state it leaves behind. -/
inductive WriteResult where
  | ok (c : FileCache)
  | panicked (c : FileCache)
deriving DecidableEq

/-- `write_to_file`: resolve the full path, acquire a handle through the
cache (panicking on an open failure), then `let _ = writeln!(..)` and
`let _ = writer.flush()` — both failures discarded. -/
def write_to_file (cache : FileCache) (file_name log_entry : String)
    (base_path : Option String) (io : IoWorld) : WriteResult × List FsEvent :=
  let p := fullPath base_path file_name
  match cache.getOrOpenFx p io with
  | (c1, none, evs) => (.panicked c1, evs)
  | (c1, some _, evs) =>
    (.ok c1,
     evs ++ [FsEvent.writeLine p log_entry (!io.writeFails),
             FsEvent.flushBuf p (!io.flushFails)])

/-- The shared `FILE_CACHE` cell: the cache value plus the `Mutex` poison
bit, which is set when a thread panics while holding the lock. -/
structure SharedLogState where
  poisoned : Bool
  cache : FileCache
deriving DecidableEq

/-- One `write_to_file` call against the shared `FILE_CACHE`:
`FILE_CACHE.lock().unwrap()` panics immediately if the mutex is poisoned;
otherwise the body runs, and a panic inside it (open failure) poisons the
mutex. The middle component reports whether this call panicked. -/
def writeToFileShared (st : SharedLogState) (file_name log_entry : String)
    (base_path : Option String) (io : IoWorld) :
    SharedLogState × Bool × List FsEvent :=
  if st.poisoned then (st, true, [])
  else
    match write_to_file st.cache file_name log_entry base_path io with
    | (.ok c1, evs) => (⟨false, c1⟩, false, evs)
    | (.panicked c1, evs) => (⟨true, c1⟩, true, evs)

/-- Invariant of the file-handle cache: no duplicate open handles per path,
a duplicate-free recency queue tracking exactly the open paths, and the
open-handle count bounded by the capacity. -/
def cacheInv (c : FileCache) : Prop :=
  (cacheKeys c).Nodup ∧ c.order.Nodup ∧
  (∀ p ∈ cacheKeys c, p ∈ c.order) ∧ (∀ p ∈ c.order, p ∈ cacheKeys c) ∧
  c.files.length = c.order.length ∧ c.files.length ≤ c.max_size

instance (c : FileCache) : Decidable (cacheInv c) := by
  unfold cacheInv; infer_instance

/-- The cache state after a sequence of acquisitions against the program's
cache (`FileCache::new(MAX_CACHE_SIZE)`). -/
def runCache (ps : List String) : FileCache :=
  ps.foldl (fun c p => (c.get_or_open p).1) (FileCache.new MAX_CACHE_SIZE)

/-- Is this event a line-write attempt? -/
def FsEvent.isWriteEvent : FsEvent → Bool
  | .writeLine _ _ _ => true
  | _ => false

/-- Is this event a buffer flush attempt? -/
def FsEvent.isFlushEvent : FsEvent → Bool
  | .flushBuf _ _ => true
  | _ => false

/-- Every line-write event in the trace is immediately followed by a flush
of the same path. -/
def flushFollowsWrite : List FsEvent → Bool
  | [] => true
  | .writeLine p _ _ :: rest =>
    match rest with
    | .flushBuf q _ :: _ => (p == q) && flushFollowsWrite rest
    | _ => false
  | _ :: rest => flushFollowsWrite rest

/-- Most-significant-digit-first decimal rendering of a natural number,
used to characterize `Nat.repr`. -/
def natDigits (n : Nat) : List Char :=
  if n < 10 then [Nat.digitChar n]
  else natDigits (n / 10) ++ [Nat.digitChar (n % 10)]
decreasing_by exact Nat.div_lt_self (by omega) (by omega)

/-- A consistently initialized configuration (Info console, Info file). -/
def gInfo : GlobalState :=
  { base_path := some "logs", stdout_level := .Info, file_level := .Info,
    max_level := .Info, logger_set := true }

/-- A sample resolved local timestamp. -/
def tDemo : LocalTime :=
  { year := 2026, month := 10, day := 12, rfc3339 := "2026-10-12T08:00:00+08:00" }

/-- The keyed record of the round-trip/format property. -/
def rKeyed : Record :=
  { level := .Info, target := "vending", message := "Message with UUID",
    uuid := some "format-test-uuid" }

/-- The same record without the key, at Warn severity. -/
def rPlain : Record :=
  { level := .Warn, target := "vending", message := "Message with UUID",
    uuid := none }

/-- Thirty-three distinct paths, enough to drive the 32-entry cache past
capacity. -/
def demoPaths : List String :=
  ["a", "b", "c", "d", "e", "f", "g", "h", "i", "j", "k", "l", "m",
   "n", "o", "p", "q", "r", "s", "t", "u", "v", "w", "x", "y", "z",
   "A", "B", "C", "D", "E", "F", "G"]

/-- Failure-free I/O. -/
def ioOk : IoWorld :=
  { createDirFails := false, openFails := false, writeFails := false, flushFails := false }

/-- I/O in which opening a file fails. -/
def ioOpenFail : IoWorld :=
  { createDirFails := false, openFails := true, writeFails := false, flushFails := false }

/-- Fresh shared `FILE_CACHE` state. -/
def sharedStart : SharedLogState :=
  { poisoned := false, cache := FileCache.new MAX_CACHE_SIZE }

lemma string_eq_of_data (s t : String) (h : s.data = t.data) : s = t :=
  congrArg String.mk h

lemma string_append_assoc (a b c : String) : a ++ b ++ c = a ++ (b ++ c) := by
  apply string_eq_of_data
  simp [String.data_append]

lemma string_append_congr (t : String) {x y : String} (h : x = y) :
    t ++ x = t ++ y := by rw [h]

lemma maxF_toNat (a b : LevelFilter) :
    (a.maxF b).toNat = max a.toNat b.toNat := by
  unfold LevelFilter.maxF
  split <;> omega

/-- Claim C4 counterexample: a second `init_logger` invocation does not
succeed — it panics on `log::set_logger(..).unwrap()`. -/
theorem init_twice_panics :
    (init_logger (init_logger initialState .Info .Info "logs").1
        .Debug .Trace "logs").2 = InitResult.panicked := by decide

/-- Claim C4 (amended): a first initialization succeeds and installs both
thresholds, the base path, registration, and the combined max level; a
re-invocation still overwrites base path and both thresholds (last write
wins for those fields) but then panics at logger registration, leaving the
global max level unchanged. -/
theorem init_logger_reinvocation (g : GlobalState) (s f : LevelFilter) (bp : String) :
    (g.logger_set = false →
      init_logger g s f bp =
        ({ g with base_path := some bp, stdout_level := s, file_level := f,
                  max_level := s.maxF f, logger_set := true }, .ok)) ∧
    (g.logger_set = true →
      init_logger g s f bp =
        ({ g with base_path := some bp, stdout_level := s, file_level := f }, .panicked)) := by
  constructor <;> intro h <;>
    simp [init_logger, set_levels, set_base_path, h]

theorem init_logger_reinvocation_witness :
    init_logger (init_logger initialState .Info .Info "logs").1 .Debug .Trace "other" =
      ({ (init_logger initialState .Info .Info "logs").1 with
           base_path := some "other", stdout_level := .Debug, file_level := .Trace },
       .panicked) :=
  (init_logger_reinvocation (init_logger initialState .Info .Info "logs").1
      .Debug .Trace "other").2 (by decide)

/-- Claim C5 counterexample: it is not true that for every configuration
reachable through `init_logger` and `set_levels` the `enabled` query
answers with the maximum of the two configured thresholds — `set_levels`
does not refresh the `log` crate's global max level. -/
theorem enabled_max_claim_false :
    ¬ (∀ g, Reachable g → ∀ l : Level,
        (DailyLogger.enabled g l ↔ levelPasses l (g.stdout_level.maxF g.file_level))) := by
  intro h
  have h2 := h (set_levels initialState .Trace .Trace)
    (.levels_step _ _ _ .base) .Debug
  exact absurd (h2.mpr (by decide)) (by decide)

/-- Claim C5 (amended): `enabled` answers from the global max level; for a
configuration produced by a successful (first) `init_logger` call this is
exactly the maximum of the two configured thresholds, so a record that even
one sink would accept is admitted by `enabled`.  Configurations reached
through `set_levels` alone may diverge, since the setter leaves the global
max level untouched. -/
theorem enabled_after_init (g : GlobalState) (s f : LevelFilter)
    (bp : String) (l : Level) (h : g.logger_set = false) :
    (DailyLogger.enabled (init_logger g s f bp).1 l ↔ levelPasses l (s.maxF f)) ∧
    ((levelPasses l s ∨ levelPasses l f) →
      DailyLogger.enabled (init_logger g s f bp).1 l) ∧
    ∀ s' f' : LevelFilter,
      (set_levels (init_logger g s f bp).1 s' f').max_level = s.maxF f := by
  refine ⟨?_, ?_, ?_⟩
  · simp [init_logger, set_levels, set_base_path, h, DailyLogger.enabled]
  · intro hor
    have h1 : DailyLogger.enabled (init_logger g s f bp).1 l ↔ levelPasses l (s.maxF f) := by
      simp [init_logger, set_levels, set_base_path, h, DailyLogger.enabled]
    rw [h1]
    unfold levelPasses at *
    rw [maxF_toNat]
    rcases hor with h2 | h2 <;> omega
  · intro s' f'
    simp [init_logger, set_levels, set_base_path, h]

theorem enabled_after_init_witness :
    DailyLogger.enabled (init_logger initialState .Error .Trace "logs").1 .Debug :=
  (enabled_after_init initialState .Error .Trace "logs" .Debug rfl).2.1
    (Or.inr (by decide))

/-- Claim C2: the formatter produces exactly the two line shapes — non-keyed
with `]: ` (colon, space) and keyed with `>:` (colon, no space) — and on the
round-trip records the file lines are exactly the specified texts after the
timestamp prefix: the keyed Info record yields
`INFO|[vending]<format-test-uuid>:Message with UUID` in both the per-key and
daily writes, and the non-keyed Warn record yields
`WARN|[vending]: Message with UUID` in the daily write only. -/
theorem entry_format :
    (∀ (t : LocalTime) (r : Record), r.uuid = none →
      entryLine t r =
        t.rfc3339 ++ "-" ++ r.level.display ++ "|[" ++ r.target ++ "]: " ++ r.message) ∧
    (∀ (t : LocalTime) (r : Record) (u : String), r.uuid = some u →
      entryLine t r =
        t.rfc3339 ++ "-" ++ r.level.display ++ "|[" ++ r.target ++ "]<" ++ u ++ ">:" ++ r.message) ∧
    (∀ t : LocalTime,
      (DailyLogger.log gInfo t rKeyed).fileWrites =
        [(orderFileName "format-test-uuid",
          t.rfc3339 ++ "-" ++ "INFO|[vending]<format-test-uuid>:Message with UUID"),
         (dateLogName t,
          t.rfc3339 ++ "-" ++ "INFO|[vending]<format-test-uuid>:Message with UUID")]) ∧
    (∀ t : LocalTime,
      (DailyLogger.log gInfo t rPlain).fileWrites =
        [(dateLogName t,
          t.rfc3339 ++ "-" ++ "WARN|[vending]: Message with UUID")]) := by
  have hkey : ∀ t : LocalTime, logEntryKeyed t rKeyed "format-test-uuid" =
      t.rfc3339 ++ "-" ++ "INFO|[vending]<format-test-uuid>:Message with UUID" := by
    intro t
    show t.rfc3339 ++ "-" ++ "INFO" ++ "|[" ++ "vending" ++ "]<" ++ "format-test-uuid"
        ++ ">:" ++ "Message with UUID" = _
    simp only [string_append_assoc]
    exact string_append_congr _ (by decide)
  have hplain : ∀ t : LocalTime, logEntryNonKeyed t rPlain =
      t.rfc3339 ++ "-" ++ "WARN|[vending]: Message with UUID" := by
    intro t
    show t.rfc3339 ++ "-" ++ "WARN" ++ "|[" ++ "vending" ++ "]: " ++ "Message with UUID" = _
    simp only [string_append_assoc]
    exact string_append_congr _ (by decide)
  refine ⟨?_, ?_, ?_, ?_⟩
  · intro t r h
    simp [entryLine, h, logEntryNonKeyed]
  · intro t r u h
    simp [entryLine, h, logEntryKeyed]
  · intro t
    rw [show (DailyLogger.log gInfo t rKeyed).fileWrites =
        [(orderFileName "format-test-uuid", logEntryKeyed t rKeyed "format-test-uuid"),
         (dateLogName t, logEntryKeyed t rKeyed "format-test-uuid")] from by
      simp [DailyLogger.log, DailyLogger.enabled, gInfo, rKeyed, levelPasses,
        Level.toNat, LevelFilter.toNat]]
    rw [hkey]
  · intro t
    rw [show (DailyLogger.log gInfo t rPlain).fileWrites =
        [(dateLogName t, logEntryNonKeyed t rPlain)] from by
      simp [DailyLogger.log, DailyLogger.enabled, gInfo, rPlain, levelPasses,
        Level.toNat, LevelFilter.toNat]]
    rw [hplain]

theorem entry_format_witness :
    entryLine tDemo rPlain =
      tDemo.rfc3339 ++ "-" ++ Level.Warn.display ++ "|[" ++ "vending" ++ "]: "
        ++ "Message with UUID" ∧
    entryLine tDemo rKeyed =
      tDemo.rfc3339 ++ "-" ++ Level.Info.display ++ "|[" ++ "vending" ++ "]<"
        ++ "format-test-uuid" ++ ">:" ++ "Message with UUID" :=
  ⟨entry_format.1 tDemo rPlain rfl, entry_format.2.1 tDemo rKeyed "format-test-uuid" rfl⟩

lemma file_gate_enabled (g : GlobalState) (l : Level)
    (hmax : g.max_level = g.stdout_level.maxF g.file_level)
    (h : levelPasses l g.file_level) : DailyLogger.enabled g l := by
  unfold DailyLogger.enabled levelPasses at *
  rw [hmax, maxF_toNat]
  omega

/-- Claim C1: under a configuration whose global max level is the one
`init_logger` installs, a record is written to its per-key file iff it
carries the `uuid` attribute and passes the file gate; it is written to the
daily file iff it passes the file gate (so a keyed admitted record hits
both files, a non-keyed admitted record only the daily file); and a record
rejected by the file gate produces no file write whatsoever, independent of
console admission. -/
theorem log_routing (g : GlobalState) (t : LocalTime) (r : Record)
    (hmax : g.max_level = g.stdout_level.maxF g.file_level) :
    ((∃ u, r.uuid = some u ∧
        (orderFileName u, logEntryKeyed t r u) ∈ (DailyLogger.log g t r).fileWrites)
      ↔ (r.uuid ≠ none ∧ levelPasses r.level g.file_level)) ∧
    (((dateLogName t, entryLine t r) ∈ (DailyLogger.log g t r).fileWrites)
      ↔ levelPasses r.level g.file_level) ∧
    (¬ levelPasses r.level g.file_level → (DailyLogger.log g t r).fileWrites = []) := by
  by_cases hf : levelPasses r.level g.file_level
  · have hen : DailyLogger.enabled g r.level := file_gate_enabled g r.level hmax hf
    cases hru : r.uuid with
    | some u =>
      have hout : (DailyLogger.log g t r).fileWrites =
          [(orderFileName u, logEntryKeyed t r u), (dateLogName t, logEntryKeyed t r u)] := by
        simp [DailyLogger.log, hen, hru, hf]
      refine ⟨?_, ?_, ?_⟩
      · simp [hout, hru, hf, entryLine]
      · simp [hout, entryLine, hru, hf]
      · intro h; exact absurd hf h
    | none =>
      have hout : (DailyLogger.log g t r).fileWrites =
          [(dateLogName t, logEntryNonKeyed t r)] := by
        simp [DailyLogger.log, hen, hru, hf]
      refine ⟨?_, ?_, ?_⟩
      · simp [hout, hru]
      · simp [hout, entryLine, hru, hf]
      · intro h; exact absurd hf h
  · have hout : (DailyLogger.log g t r).fileWrites = [] := by
      by_cases hen : DailyLogger.enabled g r.level
      · cases hru : r.uuid <;> simp [DailyLogger.log, hen, hru, hf]
      · simp [DailyLogger.log, hen]
    refine ⟨?_, ?_, ?_⟩
    · simp [hout, hf]
    · simp [hout, hf]
    · intro _; exact hout

theorem log_routing_witness :
    (dateLogName tDemo, entryLine tDemo rKeyed) ∈
      (DailyLogger.log gInfo tDemo rKeyed).fileWrites :=
  (log_routing gInfo tDemo rKeyed (by decide)).2.1.mpr (by decide)

lemma getOrOpenFx_no_open_failure (c : FileCache) (path : String) (cd wf ff : Bool) :
    c.getOrOpenFx path ⟨cd, false, wf, ff⟩ =
      ((c.get_or_open path).1, some (c.get_or_open path).2,
        if (findKey c.files path).isSome then []
        else [FsEvent.createDirAll path (!cd),
              FsEvent.openAttempt path true]) := by
  unfold FileCache.getOrOpenFx FileCache.get_or_open
  cases hk : findKey c.files path <;> simp

/-- Claim C6: with the open itself succeeding, a `write_to_file` call
returns normally with the very cache state of the failure-free acquisition
— whatever the outcomes of directory creation, the line write, and the
flush — and it attempts the write and the flush exactly once each (no
retry), so no error from these operations reaches the calling thread. -/
theorem write_failures_swallowed (cache : FileCache) (file_name log_entry : String)
    (base_path : Option String) (cd wf ff : Bool) :
    (write_to_file cache file_name log_entry base_path
        ⟨cd, false, wf, ff⟩).1 =
      WriteResult.ok (cache.get_or_open (fullPath base_path file_name)).1 ∧
    ((write_to_file cache file_name log_entry base_path
        ⟨cd, false, wf, ff⟩).2.countP FsEvent.isWriteEvent) = 1 ∧
    ((write_to_file cache file_name log_entry base_path
        ⟨cd, false, wf, ff⟩).2.countP FsEvent.isFlushEvent) = 1 := by
  simp only [write_to_file, getOrOpenFx_no_open_failure]
  by_cases hk : (findKey cache.files (fullPath base_path file_name)).isSome <;>
    simp [hk, List.countP_cons, List.countP_nil, FsEvent.isWriteEvent, FsEvent.isFlushEvent]

/-- Claim C8: in every trace a `write_to_file` call produces, each line
write is immediately followed by a flush of the same handle's path before
the call returns; and whenever the open does not fail the call does perform
a line write (the pairing is not vacuous). -/
theorem write_then_flush :
    (∀ (cache : FileCache) (file_name log_entry : String)
        (base_path : Option String) (io : IoWorld),
      flushFollowsWrite (write_to_file cache file_name log_entry base_path io).2 = true) ∧
    (∀ (cache : FileCache) (file_name log_entry : String)
        (base_path : Option String) (cd wf ff : Bool),
      (write_to_file cache file_name log_entry base_path
          ⟨cd, false, wf, ff⟩).2.any FsEvent.isWriteEvent = true) := by
  constructor
  · intro cache fn e bp io
    cases hk : findKey cache.files (fullPath bp fn) <;>
      cases hop : io.openFails <;>
        simp [write_to_file, FileCache.getOrOpenFx, hk, hop, flushFollowsWrite]
  · intro cache fn e bp cd wf ff
    simp only [write_to_file, getOrOpenFx_no_open_failure]
    by_cases hk : (findKey cache.files (fullPath bp fn)).isSome <;>
      simp [hk, FsEvent.isWriteEvent]

/-- Claim C7 counterexample: an open failure does not merely halt the one
writing thread — it panics while the cache mutex is held, poisoning it, so
a later write attempt with fully failure-free I/O (another thread's log
call) panics as well instead of continuing to log. -/
theorem open_failure_halts_later_writes :
    (writeToFileShared sharedStart "a.log" "x" none ioOpenFail).2.1 = true ∧
    (writeToFileShared (writeToFileShared sharedStart "a.log" "x" none ioOpenFail).1
        "b.log" "y" none ioOk).2.1 = true := by decide

lemma keys_filter (l : List (String × Nat)) (x : String) :
    (l.filter (fun e => e.1 != x)).map Prod.fst =
      (l.map Prod.fst).filter (fun k => k != x) := by
  induction l with
  | nil => simp
  | cons a l ih =>
    by_cases h : a.1 = x <;> simp [List.filter_cons, h, ih]

lemma findKey_none_iff (l : List (String × Nat)) (k : String) :
    findKey l k = none ↔ k ∉ l.map Prod.fst := by
  simp only [findKey, Option.map_eq_none', List.find?_eq_none, List.mem_map]
  constructor
  · rintro h ⟨e, he, hek⟩
    exact h e he (by simp [hek])
  · intro h e he hek
    exact h ⟨e, he, by simpa using hek⟩

lemma findKey_some_mem (l : List (String × Nat)) (k : String) (h : Nat)
    (hf : findKey l k = some h) : k ∈ l.map Prod.fst := by
  unfold findKey at hf
  cases he : l.find? (fun e => e.1 == k) with
  | none => rw [he] at hf; simp at hf
  | some e =>
    have h1 := List.mem_of_find?_eq_some he
    have h2 := List.find?_some he
    exact List.mem_map.mpr ⟨e, h1, by simpa using h2⟩

lemma nodup_append_singleton {α : Type} (l : List α) (a : α)
    (hl : l.Nodup) (ha : a ∉ l) : (l ++ [a]).Nodup := by
  rw [(List.perm_append_singleton a l).nodup_iff]
  exact List.nodup_cons.mpr ⟨ha, hl⟩

lemma evicted_inv (c : FileCache) (oldest : String) (rest : List String)
    (hinv : cacheInv c) (hord : c.order = oldest :: rest) :
    cacheInv { c with files := c.files.filter (fun e => e.1 != oldest), order := rest } ∧
    (c.files.filter (fun e => e.1 != oldest)).length = c.files.length - 1 := by
  obtain ⟨hk, ho, hko, hok, hlen, hsz⟩ := hinv
  have hmemo : oldest ∈ c.order := by rw [hord]; exact List.mem_cons_self _ _
  have hmemk : oldest ∈ cacheKeys c := hok oldest hmemo
  have hkeys : (c.files.filter (fun e => e.1 != oldest)).map Prod.fst =
      (cacheKeys c).erase oldest := by
    rw [keys_filter, hk.erase_eq_filter]
    rfl
  have hlen1 : ((cacheKeys c).erase oldest).length = (cacheKeys c).length - 1 :=
    List.length_erase_of_mem hmemk
  have hkc : (cacheKeys c).length = c.files.length := by
    simp [cacheKeys]
  have hflen : (c.files.filter (fun e => e.1 != oldest)).length = c.files.length - 1 := by
    have e1 : ((c.files.filter (fun e => e.1 != oldest)).map Prod.fst).length =
        (c.files.filter (fun e => e.1 != oldest)).length := by simp
    rw [← e1, hkeys, hlen1, hkc]
  have hornd : rest.Nodup := by
    have h1 := ho; rw [hord] at h1; exact h1.of_cons
  have horm : oldest ∉ rest := by
    have h1 := ho; rw [hord] at h1; exact (List.nodup_cons.mp h1).1
  refine ⟨⟨?_, ?_, ?_, ?_, ?_, ?_⟩, hflen⟩
  · show ((c.files.filter (fun e => e.1 != oldest)).map Prod.fst).Nodup
    rw [hkeys]
    exact hk.erase _
  · exact hornd
  · intro p hp
    show p ∈ rest
    have hp2 : p ∈ (c.files.filter (fun e => e.1 != oldest)).map Prod.fst := hp
    rw [hkeys] at hp2
    have hpk := List.mem_of_mem_erase hp2
    have hpo : p ∈ c.order := hko p hpk
    have hpne : p ≠ oldest := by
      intro he
      subst he
      exact (List.Nodup.not_mem_erase hk) hp2
    rw [hord] at hpo
    rcases List.mem_cons.mp hpo with h1 | h1
    · exact absurd h1 hpne
    · exact h1
  · intro p hp
    show p ∈ (c.files.filter (fun e => e.1 != oldest)).map Prod.fst
    rw [hkeys]
    have hpo : p ∈ c.order := by rw [hord]; exact List.mem_cons_of_mem _ hp
    have hpk : p ∈ cacheKeys c := hok p hpo
    have hpne : p ≠ oldest := by
      intro he; subst he; exact horm hp
    exact (List.mem_erase_of_ne hpne).mpr hpk
  · show (c.files.filter (fun e => e.1 != oldest)).length = rest.length
    have h1 : c.order.length = rest.length + 1 := by rw [hord]; simp
    omega
  · show (c.files.filter (fun e => e.1 != oldest)).length ≤ c.max_size
    omega

lemma insert_inv (c : FileCache) (p : String) (h n : Nat)
    (hinv : cacheInv c) (hnp : p ∉ cacheKeys c)
    (hroom : c.files.length < c.max_size) :
    cacheInv { c with files := c.files ++ [(p, h)],
                      order := c.order ++ [p], nextHandle := n } := by
  obtain ⟨hk, ho, hko, hok, hlen, hsz⟩ := hinv
  have hno : p ∉ c.order := fun hp => hnp (hok p hp)
  have hkeys : ((c.files ++ [(p, h)]).map Prod.fst) = cacheKeys c ++ [p] := by
    simp [cacheKeys]
  refine ⟨?_, ?_, ?_, ?_, ?_, ?_⟩
  · show ((c.files ++ [(p, h)]).map Prod.fst).Nodup
    rw [hkeys]
    exact nodup_append_singleton _ _ hk hnp
  · exact nodup_append_singleton _ _ ho hno
  · intro q hq
    have hq2 : q ∈ cacheKeys c ++ [p] := by
      have : q ∈ (c.files ++ [(p, h)]).map Prod.fst := hq
      rwa [hkeys] at this
    show q ∈ c.order ++ [p]
    rcases List.mem_append.mp hq2 with h1 | h1
    · exact List.mem_append.mpr (Or.inl (hko q h1))
    · exact List.mem_append.mpr (Or.inr h1)
  · intro q hq
    show q ∈ (c.files ++ [(p, h)]).map Prod.fst
    rw [hkeys]
    rcases List.mem_append.mp hq with h1 | h1
    · exact List.mem_append.mpr (Or.inl (hok q h1))
    · exact List.mem_append.mpr (Or.inr h1)
  · show (c.files ++ [(p, h)]).length = (c.order ++ [p]).length
    simp [hlen]
  · show (c.files ++ [(p, h)]).length ≤ c.max_size
    simp only [List.length_append, List.length_cons, List.length_nil]
    omega

lemma get_or_open_hit (c : FileCache) (p : String) (h : Nat)
    (hkf : findKey c.files p = some h) :
    c.get_or_open p =
      ({ c with order := c.order.filter (fun q => q != p) ++ [p] }, h) := by
  unfold FileCache.get_or_open
  rw [hkf]

lemma get_or_open_miss_room (c : FileCache) (p : String)
    (hkf : findKey c.files p = none) (hroom : ¬ c.max_size ≤ c.files.length) :
    c.get_or_open p =
      ({ c with files := c.files ++ [(p, c.nextHandle)],
                order := c.order ++ [p],
                nextHandle := c.nextHandle + 1 }, c.nextHandle) := by
  unfold FileCache.get_or_open
  rw [hkf]
  simp [hroom]

lemma get_or_open_miss_full (c : FileCache) (p : String) (oldest : String)
    (rest : List String) (hkf : findKey c.files p = none)
    (hfull : c.max_size ≤ c.files.length) (hord : c.order = oldest :: rest) :
    c.get_or_open p =
      ({ c with files := c.files.filter (fun e => e.1 != oldest) ++ [(p, c.nextHandle)],
                order := rest ++ [p],
                nextHandle := c.nextHandle + 1 }, c.nextHandle) := by
  unfold FileCache.get_or_open
  rw [hkf]
  simp [hfull, hord]

lemma get_or_open_preserves (c : FileCache) (p : String)
    (hinv : cacheInv c) (hcap : 1 ≤ c.max_size) :
    cacheInv (c.get_or_open p).1 ∧ (c.get_or_open p).1.max_size = c.max_size := by
  cases hkf : findKey c.files p with
  | some h =>
    rw [get_or_open_hit c p h hkf]
    obtain ⟨hk, ho, hko, hok, hlen, hsz⟩ := hinv
    have hpk : p ∈ cacheKeys c := findKey_some_mem c.files p h hkf
    have hpo : p ∈ c.order := hko p hpk
    have hfo : c.order.filter (fun q => q != p) = c.order.erase p :=
      (ho.erase_eq_filter p).symm
    have hlen2 : (c.order.filter (fun q => q != p)).length = c.order.length - 1 := by
      rw [hfo]
      exact List.length_erase_of_mem hpo
    have hle : 1 ≤ c.order.length := List.length_pos.mpr (List.ne_nil_of_mem hpo)
    refine ⟨⟨hk, ?_, ?_, ?_, ?_, hsz⟩, rfl⟩
    · exact nodup_append_singleton _ _ (hfo ▸ ho.erase p) (by
        rw [hfo]; exact List.Nodup.not_mem_erase ho)
    · intro q hq
      show q ∈ c.order.filter (fun q => q != p) ++ [p]
      by_cases hqp : q = p
      · subst hqp; exact List.mem_append.mpr (Or.inr (by simp))
      · refine List.mem_append.mpr (Or.inl ?_)
        rw [hfo]
        exact (List.mem_erase_of_ne hqp).mpr (hko q hq)
    · intro q hq
      rcases List.mem_append.mp hq with h1 | h1
      · exact hok q (List.mem_of_mem_filter h1)
      · have h2 : q = p := by simpa using h1
        subst h2; exact hpk
    · show c.files.length = (c.order.filter (fun q => q != p) ++ [p]).length
      simp only [List.length_append, List.length_cons, List.length_nil, hlen2]
      omega
  | none =>
    have hnp : p ∉ cacheKeys c := (findKey_none_iff c.files p).mp hkf
    by_cases hfull : c.max_size ≤ c.files.length
    · have hfl : c.files.length = c.max_size :=
        le_antisymm hinv.2.2.2.2.2 hfull
      have hone : 1 ≤ c.order.length := by
        have := hinv.2.2.2.2.1
        omega
      cases hord : c.order with
      | nil => rw [hord] at hone; simp at hone
      | cons oldest rest =>
        rw [get_or_open_miss_full c p oldest rest hkf hfull hord]
        obtain ⟨hinv1, hflen⟩ := evicted_inv c oldest rest hinv hord
        have hnp1 : p ∉ cacheKeys { c with
            files := c.files.filter (fun e => e.1 != oldest), order := rest } := by
          intro hp
          refine hnp ?_
          have h2 : p ∈ (c.files.filter (fun e => e.1 != oldest)).map Prod.fst := hp
          rw [keys_filter] at h2
          exact List.mem_of_mem_filter h2
        have hroom1 : (c.files.filter (fun e => e.1 != oldest)).length < c.max_size := by
          omega
        have hins := insert_inv { c with files := c.files.filter (fun e => e.1 != oldest), order := rest } p c.nextHandle (c.nextHandle + 1) hinv1 hnp1 hroom1
        exact ⟨hins, rfl⟩
    · rw [get_or_open_miss_room c p hkf hfull]
      have hroom : c.files.length < c.max_size := by omega
      exact ⟨insert_inv c p c.nextHandle (c.nextHandle + 1) hinv hnp hroom, rfl⟩

lemma runCache_foldl_inv (ps : List String) :
    ∀ c : FileCache, cacheInv c → 1 ≤ c.max_size →
      cacheInv (ps.foldl (fun c p => (c.get_or_open p).1) c) ∧
      (ps.foldl (fun c p => (c.get_or_open p).1) c).max_size = c.max_size := by
  induction ps with
  | nil => intro c h1 _; exact ⟨h1, rfl⟩
  | cons p ps ih =>
    intro c h1 h2
    obtain ⟨h3, h4⟩ := get_or_open_preserves c p h1 h2
    obtain ⟨h5, h6⟩ := ih (c.get_or_open p).1 h3 (by omega)
    exact ⟨h5, by simp only [List.foldl_cons, h6, h4]⟩

/-- Claim C3: across every sequence of acquisitions the program's cache
keeps at most one open handle per distinct path and at most
`MAX_CACHE_SIZE` (32) handles in total; acquiring an already-cached path
leaves the handle map untouched, moves the path to the back of the recency
queue and returns the stored handle; and acquiring a new path with the
cache at capacity evicts exactly the least-recently-used entry (the front
of the queue) before inserting, leaving the handle count at capacity. -/
theorem get_or_open_lru :
    (∀ ps : List String, cacheInv (runCache ps) ∧
        (runCache ps).files.length ≤ MAX_CACHE_SIZE) ∧
    (∀ (c : FileCache) (p : String) (h : Nat), findKey c.files p = some h →
        c.get_or_open p =
          ({ c with order := c.order.filter (fun q => q != p) ++ [p] }, h)) ∧
    (∀ (c : FileCache) (p : String), cacheInv c → 1 ≤ c.max_size →
        findKey c.files p = none → c.files.length = c.max_size →
        ∃ oldest rest, c.order = oldest :: rest ∧
          c.get_or_open p =
            ({ c with files := c.files.filter (fun e => e.1 != oldest) ++ [(p, c.nextHandle)], order := rest ++ [p], nextHandle := c.nextHandle + 1 }, c.nextHandle) ∧
          (c.get_or_open p).1.files.length = c.max_size) := by
  refine ⟨?_, ?_, ?_⟩
  · intro ps
    have h := runCache_foldl_inv ps (FileCache.new MAX_CACHE_SIZE) (by decide) (by decide)
    have h1 : cacheInv (runCache ps) := h.1
    have h3 : (runCache ps).max_size = MAX_CACHE_SIZE := h.2
    refine ⟨h1, ?_⟩
    rw [← h3]
    exact h1.2.2.2.2.2
  · intro c p h hkf
    exact get_or_open_hit c p h hkf
  · intro c p hinv hcap hkf hfl
    have hone : 1 ≤ c.order.length := by
      have := hinv.2.2.2.2.1
      omega
    cases hord : c.order with
    | nil => rw [hord] at hone; simp at hone
    | cons oldest rest =>
      have heq := get_or_open_miss_full c p oldest rest hkf (by omega) hord
      refine ⟨oldest, rest, rfl, heq, ?_⟩
      rw [heq]
      obtain ⟨_, hflen⟩ := evicted_inv c oldest rest hinv hord
      show (c.files.filter (fun e => e.1 != oldest) ++ [(p, c.nextHandle)]).length = c.max_size
      simp only [List.length_append, List.length_cons, List.length_nil]
      omega

theorem get_or_open_lru_witness :
    (cacheInv (runCache demoPaths) ∧ (runCache demoPaths).files.length ≤ MAX_CACHE_SIZE) ∧
    (runCache demoPaths).get_or_open "b" =
      ({ runCache demoPaths with order := (runCache demoPaths).order.filter (fun q => q != "b") ++ ["b"] }, 1) ∧
    (∃ oldest rest, (runCache demoPaths).order = oldest :: rest ∧
      (runCache demoPaths).get_or_open "zz" =
        ({ runCache demoPaths with files := (runCache demoPaths).files.filter (fun e => e.1 != oldest) ++ [("zz", (runCache demoPaths).nextHandle)], order := rest ++ ["zz"], nextHandle := (runCache demoPaths).nextHandle + 1 }, (runCache demoPaths).nextHandle) ∧
      ((runCache demoPaths).get_or_open "zz").1.files.length = (runCache demoPaths).max_size) :=
  ⟨get_or_open_lru.1 demoPaths,
   get_or_open_lru.2.1 (runCache demoPaths) "b" 1 (by decide),
   get_or_open_lru.2.2 (runCache demoPaths) "zz" (by decide) (by decide) (by decide) (by decide)⟩

lemma getOrOpenFx_open_failure (c : FileCache) (p : String) (io : IoWorld)
    (hk : findKey c.files p = none) (ho : io.openFails = true) :
    c.getOrOpenFx p io =
      ((if c.max_size ≤ c.files.length then
          match c.order with
          | [] => c
          | oldest :: rest =>
            { c with files := c.files.filter (fun e => e.1 != oldest), order := rest }
        else c), none,
       [FsEvent.createDirAll p (!io.createDirFails),
        FsEvent.openAttempt p false]) := by
  unfold FileCache.getOrOpenFx
  rw [hk]
  simp [ho]

lemma evict_step_inv (c : FileCache) (hinv : cacheInv c) :
    cacheInv (if c.max_size ≤ c.files.length then
        match c.order with
        | [] => c
        | oldest :: rest =>
          { c with files := c.files.filter (fun e => e.1 != oldest), order := rest }
      else c) := by
  by_cases hfull : c.max_size ≤ c.files.length
  · rw [if_pos hfull]
    cases hord : c.order with
    | nil => exact hinv
    | cons oldest rest => exact (evicted_inv c oldest rest hinv hord).1
  · rw [if_neg hfull]
    exact hinv

/-- Claim C7 (amended): an open failure on an uncached path is fatal to
that write attempt — the calling thread panics, having written no line —
but the panic happens while the cache mutex is held, so the mutex is left
poisoned: the cache still satisfies its structural invariant (only the
already-performed eviction has changed it), yet every subsequent file-write
attempt, by any thread and with any I/O outcomes, panics on lock
acquisition instead of continuing to log. -/
theorem open_failure_scope (st : SharedLogState) (file_name log_entry : String)
    (base_path : Option String) (io : IoWorld)
    (hp : st.poisoned = false) (ho : io.openFails = true)
    (hk : findKey st.cache.files (fullPath base_path file_name) = none) :
    (writeToFileShared st file_name log_entry base_path io).2.1 = true ∧
    (writeToFileShared st file_name log_entry base_path io).1.poisoned = true ∧
    ((writeToFileShared st file_name log_entry base_path io).2.2.countP
        FsEvent.isWriteEvent) = 0 ∧
    (cacheInv st.cache →
      cacheInv (writeToFileShared st file_name log_entry base_path io).1.cache) ∧
    (∀ (fn2 e2 : String) (bp2 : Option String) (io2 : IoWorld),
      (writeToFileShared (writeToFileShared st file_name log_entry base_path io).1
          fn2 e2 bp2 io2).2.1 = true) := by
  have hw : write_to_file st.cache file_name log_entry base_path io =
      (.panicked (if st.cache.max_size ≤ st.cache.files.length then
          match st.cache.order with
          | [] => st.cache
          | oldest :: rest =>
            { st.cache with files := st.cache.files.filter (fun e => e.1 != oldest),
                            order := rest }
        else st.cache),
       [FsEvent.createDirAll (fullPath base_path file_name) (!io.createDirFails),
        FsEvent.openAttempt (fullPath base_path file_name) false]) := by
    simp [write_to_file, getOrOpenFx_open_failure st.cache (fullPath base_path file_name) io hk ho]
  have hsh : writeToFileShared st file_name log_entry base_path io =
      (⟨true, (if st.cache.max_size ≤ st.cache.files.length then
          match st.cache.order with
          | [] => st.cache
          | oldest :: rest =>
            { st.cache with files := st.cache.files.filter (fun e => e.1 != oldest),
                            order := rest }
        else st.cache)⟩, true,
       [FsEvent.createDirAll (fullPath base_path file_name) (!io.createDirFails),
        FsEvent.openAttempt (fullPath base_path file_name) false]) := by
    unfold writeToFileShared
    rw [hp, hw]
    simp
  refine ⟨by rw [hsh], by rw [hsh], ?_, ?_, ?_⟩
  · rw [hsh]
    simp [List.countP_cons, List.countP_nil, FsEvent.isWriteEvent]
  · intro hinv
    rw [hsh]
    exact evict_step_inv st.cache hinv
  · intro fn2 e2 bp2 io2
    rw [hsh]
    simp [writeToFileShared]

theorem open_failure_scope_witness :
    (writeToFileShared sharedStart "a.log" "x" none ioOpenFail).1.poisoned = true :=
  (open_failure_scope sharedStart "a.log" "x" none ioOpenFail rfl rfl (by decide)).2.1

lemma digitChar_isDigit : ∀ k < 10, (Nat.digitChar k).isDigit = true := by decide

lemma digitChar_inj : ∀ m < 10, ∀ n < 10,
    Nat.digitChar m = Nat.digitChar n → m = n := by decide

lemma natDigits_small (n : Nat) (h : n < 10) : natDigits n = [Nat.digitChar n] := by
  rw [natDigits, if_pos h]

lemma natDigits_large (n : Nat) (h : ¬ n < 10) :
    natDigits n = natDigits (n / 10) ++ [Nat.digitChar (n % 10)] := by
  conv_lhs => rw [natDigits]
  rw [if_neg h]

lemma natDigits_toDigitsCore (n : Nat) : ∀ (fuel : Nat) (ds : List Char), n < fuel →
    Nat.toDigitsCore 10 fuel n ds = natDigits n ++ ds := by
  induction n using Nat.strong_induction_on with
  | _ n ih =>
    intro fuel ds hf
    cases fuel with
    | zero => omega
    | succ f =>
      rw [show Nat.toDigitsCore 10 (f + 1) n ds =
          (if n / 10 = 0 then Nat.digitChar (n % 10) :: ds
           else Nat.toDigitsCore 10 f (n / 10) (Nat.digitChar (n % 10) :: ds)) from by
        simp [Nat.toDigitsCore]]
      by_cases h0 : n / 10 = 0
      · rw [if_pos h0]
        have hlt : n < 10 := by omega
        rw [natDigits_small n hlt, Nat.mod_eq_of_lt hlt]
        simp
      · rw [if_neg h0]
        have h10 : 10 ≤ n := by omega
        have hdiv : n / 10 < n := Nat.div_lt_self (by omega) (by omega)
        have hfl : n / 10 < f := by omega
        rw [ih (n / 10) hdiv f (Nat.digitChar (n % 10) :: ds) hfl]
        rw [natDigits_large n (by omega)]
        simp

lemma natDigits_repr (n : Nat) : (Nat.repr n).data = natDigits n := by
  show Nat.toDigits 10 n = natDigits n
  unfold Nat.toDigits
  rw [natDigits_toDigitsCore n (n + 1) [] (by omega)]
  simp

lemma natDigits_len_pos (n : Nat) : 0 < (natDigits n).length := by
  rw [natDigits]
  split <;> simp

lemma natDigits_all_digits (n : Nat) : ∀ c ∈ natDigits n, c.isDigit = true := by
  induction n using Nat.strong_induction_on with
  | _ n ih =>
    by_cases h : n < 10
    · rw [natDigits_small n h]
      intro c hc
      simp at hc
      subst hc
      exact digitChar_isDigit n h
    · rw [natDigits_large n h]
      intro c hc
      rcases List.mem_append.mp hc with h1 | h1
      · exact ih (n / 10) (Nat.div_lt_self (by omega) (by omega)) c h1
      · have h2 : c = Nat.digitChar (n % 10) := by simpa using h1
        subst h2
        exact digitChar_isDigit _ (Nat.mod_lt _ (by omega))

lemma natDigits_inj (m : Nat) : ∀ n, natDigits m = natDigits n → m = n := by
  induction m using Nat.strong_induction_on with
  | _ m ih =>
    intro n h
    by_cases hm : m < 10 <;> by_cases hn : n < 10
    · rw [natDigits_small m hm, natDigits_small n hn] at h
      simp at h
      exact digitChar_inj m hm n hn h
    · rw [natDigits_small m hm, natDigits_large n hn] at h
      have hl := congrArg List.length h
      rw [List.length_append] at hl
      simp only [List.length_cons, List.length_nil] at hl
      have := natDigits_len_pos (n / 10)
      omega
    · rw [natDigits_large m hm, natDigits_small n hn] at h
      have hl := congrArg List.length h
      rw [List.length_append] at hl
      simp only [List.length_cons, List.length_nil] at hl
      have := natDigits_len_pos (m / 10)
      omega
    · rw [natDigits_large m hm, natDigits_large n hn] at h
      obtain ⟨h1, h2⟩ := List.append_inj' h (by simp)
      have hd := ih (m / 10) (Nat.div_lt_self (by omega) (by omega)) (n / 10) h1
      have hm2 : m % 10 = n % 10 := by
        have h3 : Nat.digitChar (m % 10) = Nat.digitChar (n % 10) := by simpa using h2
        exact digitChar_inj _ (Nat.mod_lt _ (by omega)) _ (Nat.mod_lt _ (by omega)) h3
      omega

lemma nat_repr_inj (m n : Nat) (h : Nat.repr m = Nat.repr n) : m = n := by
  apply natDigits_inj m n
  rw [← natDigits_repr, ← natDigits_repr]
  exact congrArg String.data h

lemma no_underscore_nat (n : Nat) : '_' ∉ (Nat.repr n).data := by
  intro h
  rw [natDigits_repr] at h
  exact absurd (natDigits_all_digits n '_' h) (by decide)

lemma int_toString_data_ofNat (m : Nat) :
    (toString (Int.ofNat m)).data = natDigits m := natDigits_repr m

lemma int_toString_data_negSucc (m : Nat) :
    (toString (Int.negSucc m)).data = '-' :: natDigits (m + 1) := by
  show (("-" : String) ++ Nat.repr (m + 1)).data = _
  rw [String.data_append, natDigits_repr]
  rfl

lemma no_underscore_int (i : Int) : '_' ∉ (toString i).data := by
  cases i with
  | ofNat m =>
    rw [int_toString_data_ofNat]
    intro h
    exact absurd (natDigits_all_digits m '_' h) (by decide)
  | negSucc m =>
    rw [int_toString_data_negSucc]
    intro h
    rcases List.mem_cons.mp h with h1 | h1
    · exact absurd h1 (by decide)
    · exact absurd (natDigits_all_digits (m + 1) '_' h1) (by decide)

lemma natDigits_head_not_dash (n : Nat) (c : Char) (cs : List Char)
    (h : natDigits n = c :: cs) : c ≠ '-' := by
  intro he
  have hcd : c.isDigit = true :=
    natDigits_all_digits n c (by rw [h]; exact List.mem_cons_self _ _)
  rw [he] at hcd
  exact absurd hcd (by decide)

lemma int_toString_inj (i j : Int) (h : toString i = toString j) : i = j := by
  have hd := congrArg String.data h
  cases i with
  | ofNat m =>
    cases j with
    | ofNat n =>
      rw [int_toString_data_ofNat, int_toString_data_ofNat] at hd
      exact congrArg Int.ofNat (natDigits_inj m n hd)
    | negSucc n =>
      exfalso
      rw [int_toString_data_ofNat, int_toString_data_negSucc] at hd
      cases he : natDigits m with
      | nil =>
        have := natDigits_len_pos m
        rw [he] at this
        simp at this
      | cons c cs =>
        rw [he] at hd
        injection hd with h1 _
        exact natDigits_head_not_dash m c cs he h1
  | negSucc m =>
    cases j with
    | ofNat n =>
      exfalso
      rw [int_toString_data_negSucc, int_toString_data_ofNat] at hd
      cases he : natDigits n with
      | nil =>
        have := natDigits_len_pos n
        rw [he] at this
        simp at this
      | cons c cs =>
        rw [he] at hd
        injection hd with h1 _
        exact natDigits_head_not_dash n c cs he h1.symm
    | negSucc n =>
      rw [int_toString_data_negSucc, int_toString_data_negSucc] at hd
      injection hd with _ h2
      have h3 := natDigits_inj (m + 1) (n + 1) h2
      have h4 : m = n := by omega
      rw [h4]

lemma split_at_marker (c : Char) : ∀ (a a' b b' : List Char), c ∉ a → c ∉ a' →
    a ++ c :: b = a' ++ c :: b' → a = a' ∧ b = b' := by
  intro a
  induction a with
  | nil =>
    intro a' b b' _ ha' h
    cases a' with
    | nil => simpa using h
    | cons x xs =>
      simp at h
      exfalso
      apply ha'
      rw [h.1]
      exact List.mem_cons_self _ _
  | cons x xs ih =>
    intro a' b b' ha ha' h
    cases a' with
    | nil =>
      simp at h
      exfalso
      apply ha
      rw [h.1]
      exact List.mem_cons_self _ _
    | cons y ys =>
      simp only [List.cons_append, List.cons.injEq] at h
      obtain ⟨h1, h2⟩ := h
      have ha2 : c ∉ xs := fun hm => ha (List.mem_cons_of_mem _ hm)
      have ha3 : c ∉ ys := fun hm => ha' (List.mem_cons_of_mem _ hm)
      obtain ⟨h3, h4⟩ := ih ys b b' ha2 ha3 h2
      exact ⟨by rw [h1, h3], h4⟩

lemma dateLogName_data (t : LocalTime) :
    (dateLogName t).data =
      'l' :: 'o' :: 'g' :: '_' :: ((toString t.year).data ++ '_' ::
        ((toString t.month).data ++ '_' ::
          ((toString t.day).data ++ ('.' :: 'l' :: 'o' :: 'g' :: [])))) := by
  show ("log_" ++ toString t.year ++ "_" ++ toString t.month ++ "_"
      ++ toString t.day ++ ".log").data = _
  simp [String.data_append]

lemma dateLogName_inj (t u : LocalTime) (h : dateLogName t = dateLogName u) :
    t.year = u.year ∧ t.month = u.month ∧ t.day = u.day := by
  have hd := congrArg String.data h
  rw [dateLogName_data, dateLogName_data] at hd
  simp only [List.cons.injEq, true_and] at hd
  obtain ⟨hy, hrest⟩ := split_at_marker '_' _ _ _ _
    (no_underscore_int t.year) (no_underscore_int u.year) hd
  obtain ⟨hm, hrest2⟩ := split_at_marker '_' _ _ _ _
    (no_underscore_nat t.month) (no_underscore_nat u.month) hrest
  have hdd := List.append_cancel_right hrest2
  refine ⟨?_, ?_, ?_⟩
  · exact int_toString_inj _ _ (string_eq_of_data _ _ hy)
  · exact nat_repr_inj _ _ (string_eq_of_data _ _ hm)
  · exact nat_repr_inj _ _ (string_eq_of_data _ _ hdd)

/-- Claim C9: the daily file name depends only on the local calendar date
components of the write-time timestamp (shape `log_<year>_<month>_<day>.log`);
writes whose calendar dates differ in any component target different file
names; and every file-gate-admitted record's `log` call emits a daily write
whose file name is computed from that call's own timestamp. -/
theorem daily_name_rollover :
    (∀ t u : LocalTime, t.year = u.year → t.month = u.month → t.day = u.day →
        dateLogName t = dateLogName u) ∧
    (∀ t u : LocalTime, ¬(t.year = u.year ∧ t.month = u.month ∧ t.day = u.day) →
        dateLogName t ≠ dateLogName u) ∧
    (∀ (g : GlobalState) (t : LocalTime) (r : Record),
        g.max_level = g.stdout_level.maxF g.file_level →
        levelPasses r.level g.file_level →
        ∃ line, (dateLogName t, line) ∈ (DailyLogger.log g t r).fileWrites) := by
  refine ⟨?_, ?_, ?_⟩
  · intro t u h1 h2 h3
    unfold dateLogName
    rw [h1, h2, h3]
  · intro t u hne heq
    exact hne (dateLogName_inj t u heq)
  · intro g t r hmax hf
    have hen : DailyLogger.enabled g r.level := file_gate_enabled g r.level hmax hf
    refine ⟨entryLine t r, ?_⟩
    cases hru : r.uuid with
    | some u => simp [DailyLogger.log, hen, hru, hf, entryLine]
    | none => simp [DailyLogger.log, hen, hru, hf, entryLine]

theorem daily_name_rollover_witness :
    dateLogName { year := 2026, month := 3, day := 5, rfc3339 := "morning" } =
      dateLogName { year := 2026, month := 3, day := 5, rfc3339 := "evening" } ∧
    dateLogName { year := 2026, month := 3, day := 5, rfc3339 := "" } ≠
      dateLogName { year := 2026, month := 3, day := 6, rfc3339 := "" } ∧
    ∃ line, (dateLogName tDemo, line) ∈ (DailyLogger.log gInfo tDemo rPlain).fileWrites :=
  ⟨daily_name_rollover.1 _ _ rfl rfl rfl,
   daily_name_rollover.2.1 _ _ (by decide),
   daily_name_rollover.2.2 gInfo tDemo rPlain (by decide) (by decide)⟩

/-- Claim C10: the daily name's components carry no zero padding — March 5,
2026 yields `log_2026_3_5.log`, not `log_2026_03_05.log` — and consequently
lexicographic order of names disagrees with chronological order: the
October 12, 2026 name sorts before the September 2, 2026 name. -/
theorem daily_name_unpadded :
    dateLogName { year := 2026, month := 3, day := 5, rfc3339 := "" } = "log_2026_3_5.log" ∧
    dateLogName { year := 2026, month := 3, day := 5, rfc3339 := "" } ≠ "log_2026_03_05.log" ∧
    ((dateLogName { year := 2026, month := 10, day := 12, rfc3339 := "" }).data <
      (dateLogName { year := 2026, month := 9, day := 2, rfc3339 := "" }).data) := by
  decide
